import Mathlib

/-!
# Verification of the geoapps preprocessing / tiling / meshing utilities

Shallow embedding of the algorithmic core of the `geoapps` repository
(`geoapps/inversion/utils.py`, `geoapps/io/validators.py`,
`geoapps/utils/surveys.py`) and proofs about it.

Modelling conventions:
* `float` data values are rationals (`ℚ`); a `NaN` data entry is `none` in
  `Option ℚ`; an uncertainty set to `np.inf` is `none` in `Option ℚ`.
* NumPy comparisons against `NaN` are `False`, which the `py*` helpers encode.
* Python exceptions are modelled with `Except PyErr`; each `PyErr`
  constructor corresponds to one exception site of the source.
* Calls into external libraries that are opaque collaborators of this
  repository (`np.linalg.lstsq`, `sklearn.cluster.KMeans`,
  `scipy.spatial.Delaunay`, the windowing of `geoh5py` objects) are function
  parameters of the embedding; `scipy.spatial.ConvexHull` on 2-D points is
  modelled executably by the monotone-chain algorithm.
* Euclidean-distance comparisons are carried out on squared distances,
  which order rationals the same way as the real distances do.
-/

/-- Python exceptions raised by the embedded code.  Each constructor stands
for one `raise` site (or library error) in the source. -/
inductive PyErr where
  /-- `ValueError` with the given message. -/
  | valueError : String → PyErr
  /-- `ValueError` raised by `float(...)` on an unparseable string. -/
  | floatConversionError : PyErr
  /-- The `Unrecognized ignore type` `ValueError` of `set_infinity_uncertainties`. -/
  | unrecognizedIgnoreType : Option String → PyErr
  /-- `scipy.spatial.qhull.QhullError` (degenerate hull / triangulation input). -/
  | qhullError : PyErr
  deriving DecidableEq, Repr

attribute [local semireducible] Rat.add Rat.sub Rat.mul Rat.inv

/-- Decidable equality of `Except` results, used to evaluate embedded runs
on concrete inputs. -/
instance instDecEqExcept {ε α : Type} [DecidableEq ε] [DecidableEq α] :
    DecidableEq (Except ε α)
  | .error a, .error b =>
    if h : a = b then .isTrue (by rw [h]) else .isFalse (by simp [h])
  | .error _, .ok _ => .isFalse (by simp)
  | .ok _, .error _ => .isFalse (by simp)
  | .ok a, .ok b =>
    if h : a = b then .isTrue (by rw [h]) else .isFalse (by simp [h])

/-! ## Model of `float(s)` for plain decimal literals -/

/-- Natural number denoted by a digit string (most significant first). -/
def digitsToNat (cs : List Char) : ℕ :=
  cs.foldl (fun acc c => acc * 10 + (c.toNat - '0'.toNat)) 0

/-- Unsigned decimal literal: `digits`, `digits.digits`, `digits.` or `.digits`. -/
def pyFloatUnsigned (cs : List Char) : Option ℚ :=
  let intPart := cs.takeWhile Char.isDigit
  let rest := cs.dropWhile Char.isDigit
  match rest with
  | [] => if intPart.isEmpty then none else some (digitsToNat intPart : ℚ)
  | '.' :: frac =>
    if frac.all Char.isDigit && !(intPart.isEmpty && frac.isEmpty) then
      some ((digitsToNat intPart : ℚ) + (digitsToNat frac : ℚ) / (10 : ℚ) ^ frac.length)
    else none
  | _ => none

/-- Model of Python `float(s)` on the plain decimal forms (optional
surrounding spaces, optional sign, decimal digits with an optional decimal
point).  `none` models `float` raising `ValueError`.  Exponent, `inf`/`nan`
and underscore forms are not used by the repository and are not modelled. -/
def pyFloat (s : String) : Option ℚ :=
  let cs := ((s.toList.dropWhile (· == ' ')).reverse.dropWhile (· == ' ')).reverse
  match cs with
  | '+' :: rest => pyFloatUnsigned rest
  | '-' :: rest => (pyFloatUnsigned rest).map Neg.neg
  | _ => pyFloatUnsigned cs

/-- Python `str.split(sep)` for a one-character separator, on char lists. -/
def splitOnChar (cs : List Char) (sep : Char) : List (List Char) :=
  match cs with
  | [] => [[]]
  | c :: rest =>
    let parts := splitOnChar rest sep
    if c == sep then [] :: parts
    else
      match parts with
      | [] => [[c]]
      | p :: ps => (c :: p) :: ps

/-! ## `parse_ignore_values` and `set_infinity_uncertainties`
(`geoapps/inversion/utils.py`, lines 315-369) -/

/-- Embedding of `parse_ignore_values(ignore_values, forward_only)`.
Returns an ignore value and type; the `float` call of the `'<'`/`'>'`
branch is *not* guarded by a `try`, so its `ValueError` propagates
(`Except.error`), while the `'='` branch catches it and yields
`(None, None)`. -/
def parse_ignore_values (ignore_values : Option String) (forward_only : Bool) :
    Except PyErr (Option ℚ × Option String) :=
  if forward_only then .ok (none, none)
  else
    match ignore_values with
    | none => .ok (none, none)
    | some s =>
      let ts := s.toList.filter (fun k => k == '<' || k == '>')
      let ignore_type : String := match ts with
        | [] => "="
        | k :: _ => String.mk [k]
      if ignore_type == "<" || ignore_type == ">" then
        let sep : Char := if ignore_type == "<" then '<' else '>'
        match pyFloat (String.mk ((splitOnChar s.toList sep).getD 1 [])) with
        | some v => .ok (some v, some ignore_type)
        | none => .error .floatConversionError
      else
        match pyFloat s with
        | some v => .ok (some v, some "=")
        | none => .ok (none, none)

/-- One data component of the `data_dict`: channel values (`none` = `NaN`)
and, when the component has one, an uncertainty array (`none` = `np.inf`). -/
structure CompData where
  values : List (Option ℚ)
  uncert : Option (List (Option ℚ))
  deriving DecidableEq, Repr

/-- NumPy `data <= v` on a possibly-`NaN` entry (`NaN` compares `False`). -/
def pyLe (d : Option ℚ) (v : ℚ) : Bool :=
  match d with
  | none => false
  | some x => x ≤ v

/-- NumPy `data >= v` on a possibly-`NaN` entry. -/
def pyGe (d : Option ℚ) (v : ℚ) : Bool :=
  match d with
  | none => false
  | some x => v ≤ x

/-- NumPy `data == v` on a possibly-`NaN` entry. -/
def pyEq (d : Option ℚ) (v : ℚ) : Bool :=
  match d with
  | none => false
  | some x => x == v

/-- `np.isnan(data)` elementwise. -/
def pyIsNan (d : Option ℚ) : Bool := d.isNone

/-- Body of the per-component loop of `set_infinity_uncertainties`:
`uncertainty[np.isnan(data)] = np.inf`, then the ignore-type dispatch.
Components without an uncertainty are skipped (`continue`). -/
def applyIgnoreComp (ignore_value : Option ℚ) (ignore_type : Option String)
    (c : CompData) : Except PyErr CompData :=
  match c.uncert with
  | none => .ok c
  | some u =>
    let u1 := List.zipWith (fun d uu => if pyIsNan d then none else uu) c.values u
    match ignore_value with
    | none => .ok { c with uncert := some u1 }
    | some v =>
      if ignore_type == some "<" then
        let u2 := List.zipWith (fun d uu => if pyLe d v then none else uu) c.values u1
        .ok { c with uncert := some u2 }
      else if ignore_type == some ">" then
        let u2 := List.zipWith (fun d uu => if pyGe d v then none else uu) c.values u1
        .ok { c with uncert := some u2 }
      else if ignore_type == some "=" then
        let u2 := List.zipWith (fun d uu => if pyEq d v then none else uu) c.values u1
        .ok { c with uncert := some u2 }
      else .error (.unrecognizedIgnoreType ignore_type)

/-- The `for comp in components` loop of `set_infinity_uncertainties`. -/
def setInfinityLoop (ignore_value : Option ℚ) (ignore_type : Option String) :
    List CompData → Except PyErr (List CompData)
  | [] => .ok []
  | c :: rest =>
    match applyIgnoreComp ignore_value ignore_type c with
    | .error e => .error e
    | .ok c2 =>
      match setInfinityLoop ignore_value ignore_type rest with
      | .error e => .error e
      | .ok rest2 => .ok (c2 :: rest2)

/-- Embedding of `set_infinity_uncertainties(ignore_values, forward_only,
components, data_dict)`: derives the ignore value/type from
`parse_ignore_values` and rewrites each component's uncertainties. -/
def set_infinity_uncertainties (ignore_values : Option String) (forward_only : Bool)
    (comps : List CompData) : Except PyErr (List CompData) :=
  match parse_ignore_values ignore_values forward_only with
  | .error e => .error e
  | .ok p => setInfinityLoop p.1 p.2 comps

/-! ## `InputValidator.validate` (`geoapps/io/validators.py`, lines 56-80)

The validation dictionaries (`required_parameters`, `valid_parameters`, ...)
are imported by the source from a constants module; they and the four
detailed check methods are parameters of the embedding, so every theorem
below holds for any contents of those dictionaries. -/

/-- The constants module and detail checks that `InputValidator` closes over.
`α` is the type of Python parameter values. -/
structure ValidatorContext (α : Type) where
  required_parameters : List String
  valid_parameters : List String
  valid_parameter_values : List String
  valid_parameter_types : List String
  valid_parameter_shapes : List String
  valid_parameter_keys : List String
  validateVal : String → α → Except PyErr Unit
  validateType : String → α → Except PyErr Unit
  validateShape : String → α → Except PyErr Unit
  validateKeys : String → α → Except PyErr Unit

/-- Embedding of `InputValidator.validate(param, value)`: `None` values pass
unless the parameter is required; non-`None` values must name a valid
parameter and then undergo the four conditional detail checks. -/
def InputValidator.validate {α : Type} (ctx : ValidatorContext α) (param : String)
    (value : Option α) : Except PyErr Unit :=
  match value with
  | none =>
    if param ∈ ctx.required_parameters then
      .error (.valueError (param ++ " is a required parameter. Cannot be None."))
    else .ok ()
  | some v =>
    let checkval := param ∈ ctx.valid_parameter_values
    let checktype := param ∈ ctx.valid_parameter_types
    let checkshape := param ∈ ctx.valid_parameter_shapes
    let checkkeys := param ∈ ctx.valid_parameter_keys
    if param ∉ ctx.valid_parameters then
      .error (.valueError ("Encountered an invalid input parameter: " ++ param ++ "."))
    else do
      if checkval then ctx.validateVal param v
      if checktype then ctx.validateType param v
      if checkshape then ctx.validateShape param v
      if checkkeys then ctx.validateKeys param v

/-! ## `traveling_salesman` (`geoapps/utils/surveys.py`, lines 121-143)

Distances are compared through their squares (`sqDist`), which induces the
same order on nonnegative reals as the Euclidean norm used by the source. -/

/-- Squared Euclidean distance of two 2-D points. -/
def sqDist (p q : ℚ × ℚ) : ℚ := (p.1 - q.1) ^ 2 + (p.2 - q.2) ^ 2

/-- `np.argmin` over an index list: the first listed index attaining the
minimum of `f`. -/
def argminBy (f : ℕ → ℚ) : List ℕ → ℕ
  | [] => 0
  | [a] => a
  | a :: b :: rest =>
    let m := argminBy f (b :: rest)
    if f a ≤ f m then a else m

/-- `np.argmax` over an index list: the first listed index attaining the
maximum of `f`. -/
def argmaxBy (f : ℕ → ℚ) : List ℕ → ℕ
  | [] => 0
  | [a] => a
  | a :: b :: rest =>
    let m := argmaxBy f (b :: rest)
    if f m ≤ f a then a else m

/-- `locs[:, :2].mean(axis=0)`. -/
def tsMean (locs : List (ℚ × ℚ)) : ℚ × ℚ :=
  ((locs.map Prod.fst).sum / (locs.length : ℚ),
   (locs.map Prod.snd).sum / (locs.length : ℚ))

/-- The nearest-neighbour loop of `traveling_salesman`: repeatedly move to
the closest not-yet-visited index (`remaining` is kept in ascending order,
matching `np.where(mask)[0]`). -/
def tsLoop (locs : List (ℚ × ℚ)) : ℕ → ℕ → List ℕ → List ℕ
  | 0, _, _ => []
  | fuel + 1, current, remaining =>
    let next := argminBy (fun j => sqDist (locs.getD current (0, 0)) (locs.getD j (0, 0))) remaining
    next :: tsLoop locs fuel next (remaining.erase next)

/-- Embedding of `traveling_salesman(locs)`: start at the point furthest
from the mean location, then greedily visit nearest unvisited points. -/
def traveling_salesman (locs : List (ℚ × ℚ)) : List ℕ :=
  let n := locs.length
  let current := argmaxBy (fun i => sqDist (locs.getD i (0, 0)) (tsMean locs)) (List.range n)
  current :: tsLoop locs (n - 1) current ((List.range n).filter (fun j => j != current))

/-! ## Model of `scipy.spatial.ConvexHull` on 2-D points

Monotone-chain convex hull over indexed rational points.  `hull.vertices`
is the list of input indices that are corners of the hull; collinear input
(fewer than three corners) models qhull's `QhullError`. -/

/-- Cross product of `(a - o)` and `(b - o)`. -/
def cross2 (o a b : ℚ × ℚ) : ℚ :=
  (a.1 - o.1) * (b.2 - o.2) - (a.2 - o.2) * (b.1 - o.1)

/-- Lexicographic `(x, y)` order on indexed points, as a Bool. -/
def ptLe (a b : ℕ × (ℚ × ℚ)) : Bool :=
  decide (a.2.1 < b.2.1) || (decide (a.2.1 = b.2.1) && decide (a.2.2 ≤ b.2.2))

/-- Insert into a sorted list (stable insertion sort step). -/
def insertSortedBy {α : Type} (le : α → α → Bool) (a : α) : List α → List α
  | [] => [a]
  | b :: rest => if le a b then a :: b :: rest else b :: insertSortedBy le a rest

/-- Stable sort by a boolean order (model of the sorts performed by the
external numeric libraries). -/
def sortBy {α : Type} (le : α → α → Bool) : List α → List α
  | [] => []
  | a :: rest => insertSortedBy le a (sortBy le rest)

/-- One step of the monotone-chain scan: pop stack entries that make a
non-left turn with the incoming point, then push it. -/
def chainStep (stack : List (ℕ × (ℚ × ℚ))) (p : ℕ × (ℚ × ℚ)) : List (ℕ × (ℚ × ℚ)) :=
  match stack with
  | b :: a :: rest =>
    if cross2 a.2 b.2 p.2 ≤ 0 then chainStep (a :: rest) p else p :: b :: a :: rest
  | _ => p :: stack

/-- Indices of the convex-hull corners of `pts` (counter-clockwise), or
`none` when the input is degenerate (what `scipy` reports as `QhullError`). -/
def convexHullVertices (pts : List (ℚ × ℚ)) : Option (List ℕ) :=
  let ipts := (List.range pts.length).map (fun i => (i, pts.getD i (0, 0)))
  let sorted := sortBy ptLe ipts
  let lower := (sorted.foldl chainStep []).reverse
  let upper := (sorted.reverse.foldl chainStep []).reverse
  let verts := lower.dropLast ++ upper.dropLast
  if verts.length < 3 then none else some (verts.map Prod.fst)

/-! ## `calculate_2D_trend` (`geoapps/inversion/utils.py`, lines 24-110)

`np.linalg.lstsq` is an external least-squares solver; it enters the
embedding as the function parameter `lstsq`.  The solver always returns one
coefficient per matrix column, so the `getD` defaults in `trendAt` are
never consulted for the real collaborator. -/

/-- The Python value passed as `order`: an `int`, or anything failing the
`isinstance(order, int)` check. -/
inductive PyOrder where
  | int : ℤ → PyOrder
  | nonInt : PyOrder
  deriving DecidableEq, Repr

/-- Type of the `np.linalg.lstsq` collaborator: design matrix (rows =
points) and right-hand side to fitted coefficients. -/
abbrev LstsqFn := List (List ℚ) → List ℚ → List ℚ

/-- The NaN filtering `ind_nan = ~np.isnan(values)` applied to point/value
pairs. -/
def trendFiltered (points : List (ℚ × ℚ)) (values : List (Option ℚ)) :
    List ((ℚ × ℚ) × ℚ) :=
  (points.zip values).filterMap (fun pv => pv.2.map (fun v => (pv.1, v)))

/-- `points[ind_nan, :]`. -/
def filteredLocs (points : List (ℚ × ℚ)) (values : List (Option ℚ)) : List (ℚ × ℚ) :=
  (trendFiltered points values).map Prod.fst

/-- `values[ind_nan]`. -/
def filteredVals (points : List (ℚ × ℚ)) (values : List (Option ℚ)) : List ℚ :=
  (trendFiltered points values).map Prod.snd

/-- `loc_xy[hull.vertices, :2]`: the NaN-filtered points restricted to the
convex-hull corner indices. -/
def hullLocs (points : List (ℚ × ℚ)) (values : List (Option ℚ)) (hidx : List ℕ) :
    List (ℚ × ℚ) :=
  hidx.map (fun i => (filteredLocs points values).getD i (0, 0))

/-- `values[hull.vertices]`. -/
def hullVals (points : List (ℚ × ℚ)) (values : List (Option ℚ)) (hidx : List ℕ) :
    List ℚ :=
  hidx.map (fun i => (filteredVals points values).getD i 0)

/-- `np.triu_indices(n)`: row-major upper-triangle index pairs. -/
def triuIndices (n : ℕ) : List (ℕ × ℕ) :=
  (List.range n).flatMap
    (fun i => ((List.range n).filter (fun j => decide (i ≤ j))).map (fun j => (i, j)))

/-- Number of polynomial coefficients for a given order. -/
def nCoeffs (order : ℕ) : ℕ := (triuIndices (order + 1)).length

/-- The `|value|`-weighted centre of mass of the fitting points. -/
def trendCenter (locs : List (ℚ × ℚ)) (vals : List ℚ) : ℚ × ℚ :=
  let w := (vals.map (fun v => |v|)).sum
  ((List.zipWith (fun (p : ℚ × ℚ) v => p.1 * |v|) locs vals).sum / w,
   (List.zipWith (fun (p : ℚ × ℚ) v => p.2 * |v|) locs vals).sum / w)

/-- One monomial `(x - cx)^i * (y - cy)^(j - i)` of the trend polynomial. -/
def trendTerm (center : ℚ × ℚ) (e : ℕ × ℕ) (p : ℚ × ℚ) : ℚ :=
  (p.1 - center.1) ^ e.1 * (p.2 - center.2) ^ (e.2 - e.1)

/-- The `polynomial` design matrix: one row per fitting point, one column
per upper-triangle exponent pair. -/
def designMatrix (order : ℕ) (center : ℚ × ℚ) (locs : List (ℚ × ℚ)) :
    List (List ℚ) :=
  locs.map (fun p => (triuIndices (order + 1)).map (fun e => trendTerm center e p))

/-- The fitted polynomial evaluated at `p`: the `data_trend` accumulation
loop of the source. -/
def trendAt (order : ℕ) (center : ℚ × ℚ) (params : List ℚ) (p : ℚ × ℚ) : ℚ :=
  ((triuIndices (order + 1)).enum.map
    (fun ie => params.getD ie.1 0 * trendTerm center ie.2 p)).sum

/-- The tail of `calculate_2D_trend` after the fitting points have been
selected: centre of mass, design matrix, coefficient-count check, least
squares fit, and evaluation of the trend at every input point. -/
def trendResult (lstsq : LstsqFn) (o : ℕ) (points loc_xy : List (ℚ × ℚ))
    (vals : List ℚ) : Except PyErr (List ℚ × List ℚ) :=
  let center := trendCenter loc_xy vals
  if loc_xy.length ≤ nCoeffs o then
    .error (.valueError
      "The number of input values must be greater than the number of coefficients in the polynomial.")
  else
    let params := lstsq (designMatrix o center loc_xy) vals
    .ok (points.map (trendAt o center params), params)

/-- Embedding of `calculate_2D_trend(points, values, order, method)`. -/
def calculate_2D_trend (lstsq : LstsqFn) (points : List (ℚ × ℚ))
    (values : List (Option ℚ)) (order : PyOrder) (method : String) :
    Except PyErr (List ℚ × List ℚ) :=
  match order with
  | .nonInt => .error (.valueError "Polynomial order should be an integer > 0.")
  | .int o =>
    if o < 0 then .error (.valueError "Polynomial order should be an integer > 0.")
    else
      let locAll := filteredLocs points values
      let valAll := filteredVals points values
      let sel : Except PyErr (List (ℚ × ℚ) × List ℚ) :=
        if method == "perimeter" then
          match convexHullVertices locAll with
          | none => .error .qhullError
          | some hidx =>
            .ok (hullLocs points values hidx, hullVals points values hidx)
        else if method != "all" then
          .error (.valueError "method must be either all, or perimeter.")
        else .ok (locAll, valAll)
      match sel with
      | .error e => .error e
      | .ok lv => trendResult lstsq o.toNat points lv.1 lv.2

/-! ## `create_nested_mesh` (`geoapps/inversion/utils.py`, lines 113-193)

`discretize.TreeMesh` is external; the embedding records the mesh geometry
read by the source (`BaseTreeMesh`) and the sequence of `insert_cells`
batches performed on the nested mesh (`NestedTreeMesh.insertions`), with
octree levels as integers.  `scipy.spatial.Delaunay` together with
`find_simplex` is the function parameter `delaunay` (`none` models a
`QhullError`).  `get_unique_locations(survey)` extracts the survey
locations; the embedding receives that array directly. -/

/-- The fields of the global `TreeMesh` read by `create_nested_mesh`. -/
structure BaseTreeMesh where
  hx : List ℚ
  hy : List ℚ
  hz : List ℚ
  x0 : ℚ × ℚ × ℚ
  max_level : ℕ
  gridCC : List (ℚ × ℚ × ℚ)
  cellLevel : ℕ → ℤ

/-- The nested mesh under construction: geometry plus the trace of
`insert_cells` batches (cell centres with their refinement levels). -/
structure NestedTreeMesh where
  h : List ℚ × List ℚ × List ℚ
  x0 : ℚ × ℚ × ℚ
  insertions : List (List ((ℚ × ℚ × ℚ) × ℤ))
  finalized : Bool
  deriving DecidableEq, Repr

/-- First two coordinates of a 3-D point (`[:, :2]`). -/
def xy3 (p : ℚ × ℚ × ℚ) : ℚ × ℚ := (p.1, p.2.1)

/-- `nested_mesh.insert_cells(points, levels, finalize=...)`. -/
def insertCells (m : NestedTreeMesh) (batch : List ((ℚ × ℚ × ℚ) × ℤ))
    (finalize : Bool) : NestedTreeMesh :=
  { m with insertions := m.insertions ++ [batch], finalized := m.finalized || finalize }

/-- The initial insertion of all base-mesh cells with levels clipped to
`base_mesh.max_level - minimum_level`. -/
def baseBatch (bm : BaseTreeMesh) (minimum_level : ℕ) : List ((ℚ × ℚ × ℚ) × ℤ) :=
  (List.range bm.gridCC.length).map (fun i =>
    (bm.gridCC.getD i (0, 0, 0),
     min (bm.cellLevel i) ((bm.max_level : ℤ) - (minimum_level : ℤ))))

/-- `min(h[0][0], h[1][0])`: the smaller of the first x and y cell widths. -/
def baseCellWidth (bm : BaseTreeMesh) : ℚ := min bm.hx.headI bm.hy.headI

/-- The cell centres rescaled towards the mean centre by
`base_cell / h[0][0]` in x and `base_cell / h[1][0]` in y. -/
def stretchedCC (bm : BaseTreeMesh) : List (ℚ × ℚ) :=
  let ccxy := bm.gridCC.map xy3
  let n := ccxy.length
  let center : ℚ × ℚ := ((ccxy.map Prod.fst).sum / (n : ℚ), (ccxy.map Prod.snd).sum / (n : ℚ))
  let base_cell := baseCellWidth bm
  ccxy.map (fun p =>
    ((p.1 - center.1) * (base_cell / bm.hx.headI) + center.1,
     (p.2 - center.2) * (base_cell / bm.hy.headI) + center.2))

/-- Squared distance from `p` to its nearest point of `locs` (the
`cKDTree(locations).query` read-out, squared). -/
def minSqDist (locs : List (ℚ × ℚ)) (p : ℚ × ℚ) : ℚ :=
  match locs.map (sqDist p) with
  | [] => 0
  | d :: ds => ds.foldl min d

/-- `rad < pad` through squares: true iff the nonnegative distance with
square `rad2` is below `pad`. -/
def distLt (rad2 pad : ℚ) : Bool := decide (0 < pad) && decide (rad2 < pad ^ 2)

/-- The batch inserted by one padding pass `ii` with cumulative padding
distance `pad`: base cells whose stretched centre lies within `pad` of the
survey, levels clipped to `max_level - ii`. -/
def paddingBatch (bm : BaseTreeMesh) (locs : List (ℚ × ℚ)) (pad : ℚ) (ii : ℕ) :
    List ((ℚ × ℚ × ℚ) × ℤ) :=
  let str := stretchedCC bm
  ((List.range bm.gridCC.length).filter
      (fun i => distLt (minSqDist locs (str.getD i (0, 0))) pad)).map
    (fun i => (bm.gridCC.getD i (0, 0, 0),
               min (bm.cellLevel i) ((bm.max_level : ℤ) - (ii : ℤ))))

/-- The `for ii in range(minimum_level)` padding loop, accumulating
`pad_distance += base_cell * 2**ii * padding_cells` and inserting each
pass's batch. -/
def paddingLoop (bm : BaseTreeMesh) (locs : List (ℚ × ℚ)) (base_cell padding : ℚ)
    (n : ℕ) (m0 : NestedTreeMesh) : ℚ × NestedTreeMesh :=
  (List.range n).foldl
    (fun acc ii =>
      let pad := acc.1 + base_cell * 2 ^ ii * padding
      (pad, insertCells acc.2 (paddingBatch bm locs pad ii) false))
    (0, m0)

/-- Cumulative `pad_distance` after `k` iterations of the padding loop. -/
def padCum (base_cell padding : ℚ) : ℕ → ℚ
  | 0 => 0
  | k + 1 => padCum base_cell padding k + base_cell * 2 ^ k * padding

/-- The warning emitted when qhull fails to triangulate the survey. -/
def qhullWarning : String :=
  "qhull failed to triangulate. Defaulting to padding_cells method."

/-- The padding-cells refinement followed by the final `finalize()` call. -/
def paddingFinish (bm : BaseTreeMesh) (locations : List (ℚ × ℚ × ℚ))
    (nested1 : NestedTreeMesh) (padding_cells minimum_level : ℕ)
    (finalize : Bool) : NestedTreeMesh :=
  let base_cell := baseCellWidth bm
  let locsXY := locations.map xy3
  let m := (paddingLoop bm locsXY base_cell (padding_cells : ℚ) minimum_level nested1).2
  if finalize then { m with finalized := true } else m

/-- Type of the `Delaunay`/`find_simplex` collaborator: from the survey's
xy locations to a membership test of the triangulation (`none` models
`QhullError`). -/
abbrev DelaunayFn := List (ℚ × ℚ) → Option ((ℚ × ℚ) → Bool)

/-- Embedding of `create_nested_mesh(survey, base_mesh, method,
padding_cells, minimum_level, finalize)`.  The returned pair carries the
emitted warnings alongside the nested mesh. -/
def create_nested_mesh (delaunay : DelaunayFn) (locations : List (ℚ × ℚ × ℚ))
    (bm : BaseTreeMesh) (method : String) (padding_cells : ℕ)
    (minimum_level : ℕ) (finalize : Bool) :
    Except PyErr (List String × NestedTreeMesh) :=
  let nested0 : NestedTreeMesh := ⟨(bm.hx, bm.hy, bm.hz), bm.x0, [], false⟩
  let nested1 := insertCells nested0 (baseBatch bm minimum_level) false
  let locsXY := locations.map xy3
  if method == "convex_hull" then
    match delaunay locsXY with
    | some inTri =>
      let idx := (List.range bm.gridCC.length).filter
        (fun i => inTri (xy3 (bm.gridCC.getD i (0, 0, 0))))
      let batch := idx.map (fun i => (bm.gridCC.getD i (0, 0, 0), bm.cellLevel i))
      .ok ([], insertCells nested1 batch finalize)
    | none =>
      .ok ([qhullWarning],
        paddingFinish bm locations nested1 padding_cells minimum_level finalize)
  else if method != "padding_cells" then
    .error (.valueError "Input method must be one of convex_hull or padding_cells.")
  else
    .ok ([], paddingFinish bm locations nested1 padding_cells minimum_level finalize)

/-! ## `tile_locations` (`geoapps/inversion/utils.py`, lines 458-619)

`sklearn.cluster.KMeans` (seeded with `np.random.seed(0)` in the source) is
the function parameter `kmeans`, returning one cluster label per location.
The memory-efficient percentile branch (`method != 'kmeans'`) is abstracted
to its labelling `otherLabels`; its plotting-only extras (which the
source's own NOTE calls legacy values) are not modelled, and no claim
touches that branch. -/

/-- Type of the KMeans collaborator: locations and `n_clusters` to the
fitted `labels_` array. -/
abbrev KMeansFn := List (ℚ × ℚ) → ℕ → List ℕ

/-- Result of `tile_locations`: the tiles, and the optional extras
requested through `bounding_box` / `count` / `unique_id`. -/
structure TileOut where
  tiles : List (List ℕ)
  bbox : Option (List (ℚ × ℚ) × List (ℚ × ℚ))
  binCount : Option (List ℕ)
  tileIds : Option (List ℕ)
  deriving DecidableEq, Repr

/-- `arr.min()`: `ValueError` on an empty array. -/
def listMinQ : List ℚ → Except PyErr ℚ
  | [] => .error (.valueError "zero-size array to reduction operation minimum")
  | x :: xs => .ok (xs.foldl min x)

/-- `arr.max()`: `ValueError` on an empty array. -/
def listMaxQ : List ℚ → Except PyErr ℚ
  | [] => .error (.valueError "zero-size array to reduction operation maximum")
  | x :: xs => .ok (xs.foldl max x)

/-- One iteration of the per-tile statistics loop of the kmeans branch:
the x/y extremes of the points of cluster `ii` and their count. -/
def tileStat (locs : List (ℚ × ℚ)) (labels : List ℕ) (ii : ℕ) :
    Except PyErr (ℚ × ℚ × ℚ × ℚ × ℕ) :=
  let pts := (locs.zip labels).filterMap
    (fun pl => if pl.2 = ii then some pl.1 else none)
  match listMinQ (pts.map Prod.fst) with
  | .error e => .error e
  | .ok x1 =>
    match listMaxQ (pts.map Prod.fst) with
    | .error e => .error e
    | .ok x2 =>
      match listMinQ (pts.map Prod.snd) with
      | .error e => .error e
      | .ok y1 =>
        match listMaxQ (pts.map Prod.snd) with
        | .error e => .error e
        | .ok y2 => .ok (x1, x2, y1, y2, pts.length)

/-- The `for ii in range(int(n_tiles))` statistics loop of the kmeans
branch (called on `List.range n_tiles`). -/
def kmeansStats (locs : List (ℚ × ℚ)) (labels : List ℕ) :
    List ℕ → Except PyErr (List (ℚ × ℚ × ℚ × ℚ × ℕ))
  | [] => .ok []
  | ii :: rest =>
    match tileStat locs labels ii with
    | .error e => .error e
    | .ok st =>
      match kmeansStats locs labels rest with
      | .error e => .error e
      | .ok ss => .ok (st :: ss)

/-- `np.unique(labels)`: the distinct labels in increasing order. -/
def uniqueSorted (l : List ℕ) : List ℕ :=
  sortBy (fun a b => decide (a ≤ b)) l.dedup

/-- The final grouping of `tile_locations`:
`tiles = [np.where(labels == tid)[0] for tid in tile_id]`. -/
def tilesFor (labels : List ℕ) : List (List ℕ) :=
  (uniqueSorted labels).map
    (fun tid => (List.range labels.length).filter (fun j => decide (labels.getD j 0 = tid)))

/-- Embedding of `tile_locations(locations, n_tiles, minimize, method,
bounding_box, count, unique_id)`. -/
def tile_locations (kmeans : KMeansFn) (otherLabels : List (ℚ × ℚ) → ℕ → List ℕ)
    (locs : List (ℚ × ℚ)) (n_tiles : ℕ) (minimize : Bool) (method : String)
    (bounding_box countFlag unique_id : Bool) : Except PyErr TileOut :=
  if method == "kmeans" then
    let labels := kmeans locs n_tiles
    match kmeansStats locs labels (List.range n_tiles) with
    | .error e => .error e
    | .ok stats =>
      let nonempty := stats.filter (fun s => decide (0 < s.2.2.2.2))
      let xy1 := nonempty.map (fun s => (s.1, s.2.2.1))
      let xy2 := nonempty.map (fun s => (s.2.1, s.2.2.2.1))
      let tile_id := uniqueSorted labels
      let tiles := tilesFor labels
      .ok ⟨tiles,
        if bounding_box then some (xy1, xy2) else none,
        if countFlag then some (nonempty.map (fun s => s.2.2.2.2)) else none,
        if unique_id then some tile_id else none⟩
  else
    let labels := otherLabels locs n_tiles
    let tiles := tilesFor labels
    .ok ⟨tiles, none, none, none⟩

/-! ## `window_data`, `detrend_data`, `preprocess_data`
(`geoapps/inversion/utils.py`, lines 196-455)

`window_data` is built from `filter_xy`, `get_locations` and
`geoh5py`'s `copy_from_extent`, all outside the algorithmic core; it enters
the embedding as an opaque transformation `window` of the component data
and locations.  The trailing uid bookkeeping of `preprocess_data`
(`update_dict`) lives in the external data container and is not modelled;
the embedding returns the processed component data instead. -/

/-- The data flowing through `preprocess_data`: the `data_dict` components
and the locations returned by `window_data`. -/
structure PreData where
  comps : List CompData
  locations : List (ℚ × ℚ)
  deriving DecidableEq, Repr

/-- Type of the `window_data` step (windowing via `filter_xy` /
`copy_from_extent`). -/
abbrev WindowFn := PreData → PreData

/-- The per-component loop of `detrend_data`: compute the trend of each
channel with `calculate_2D_trend` and subtract it from the values. -/
def detrendLoop (lstsq : LstsqFn) (locations : List (ℚ × ℚ)) (detrend_order : PyOrder)
    (detrend_type : String) : List CompData → Except PyErr (List CompData)
  | [] => .ok []
  | c :: rest =>
    match calculate_2D_trend lstsq locations c.values detrend_order detrend_type with
    | .error e => .error e
    | .ok t =>
      match detrendLoop lstsq locations detrend_order detrend_type rest with
      | .error e => .error e
      | .ok rest2 =>
        .ok ({ c with
          values := List.zipWith (fun v tr => v.map (fun x => x - tr)) c.values t.1 } :: rest2)

/-- Embedding of `detrend_data(detrend_type, detrend_order, components,
data_dict, locations)`. -/
def detrend_data (lstsq : LstsqFn) (detrend_type : Option String)
    (detrend_order : Option PyOrder) (comps : List CompData)
    (locations : List (ℚ × ℚ)) : Except PyErr (List CompData) :=
  if detrend_type == some "none" || detrend_type == none || detrend_order == none then
    .ok comps
  else
    detrendLoop lstsq locations (detrend_order.getD (.int 0)) (detrend_type.getD "") comps

/-- Embedding of `preprocess_data(...)`: windowing, then (when requested)
ignore-value processing, then (when requested) detrending, in the order of
the source. -/
def preprocess_data (window : WindowFn) (lstsq : LstsqFn) (forward_only : Bool)
    (ignore_values : Option String) (detrend_type : Option String)
    (detrend_order : Option PyOrder) (d : PreData) : Except PyErr PreData :=
  let d1 := window d
  match (if ignore_values ≠ none then
          set_infinity_uncertainties ignore_values forward_only d1.comps
         else .ok d1.comps) with
  | .error e => .error e
  | .ok comps2 =>
    match (if detrend_type ≠ none ∧ detrend_order ≠ none then
            detrend_data lstsq detrend_type detrend_order comps2 d1.locations
           else .ok comps2) with
    | .error e => .error e
    | .ok comps3 => .ok ⟨comps3, d1.locations⟩

/-- Modelled from the spec: the pipeline in the order claim C1 asserts
(windowing, then detrending, then ignore-value processing), for comparison
with `preprocess_data`. -/
def preprocess_data_spec_order (window : WindowFn) (lstsq : LstsqFn) (forward_only : Bool)
    (ignore_values : Option String) (detrend_type : Option String)
    (detrend_order : Option PyOrder) (d : PreData) : Except PyErr PreData :=
  let d1 := window d
  match (if detrend_type ≠ none ∧ detrend_order ≠ none then
          detrend_data lstsq detrend_type detrend_order d1.comps d1.locations
         else .ok d1.comps) with
  | .error e => .error e
  | .ok comps2 =>
    match (if ignore_values ≠ none then
            set_infinity_uncertainties ignore_values forward_only comps2
           else .ok comps2) with
    | .error e => .error e
    | .ok comps3 => .ok ⟨comps3, d1.locations⟩

/-- The number of fitting points `calculate_2D_trend` hands to the least
squares solver: NaN-filtered points, restricted to the convex-hull corners
for the `perimeter` method. -/
def fittingCount (points : List (ℚ × ℚ)) (values : List (Option ℚ))
    (method : String) : ℕ :=
  if method == "perimeter" then
    ((convexHullVertices (filteredLocs points values)).getD []).length
  else (filteredLocs points values).length

/-- The natural-number order carried by a `PyOrder`. -/
def orderNat : PyOrder → ℕ
  | .int z => z.toNat
  | .nonInt => 0

/-! ## Concrete fixtures used by witness theorems -/

/-- A tiny validator context over `Unit` values. -/
def ctxW : ValidatorContext Unit :=
  ⟨["workspace"], ["workspace", "resolution"], [], [], [], [],
   fun _ _ => .ok (), fun _ _ => .ok (), fun _ _ => .ok (), fun _ _ => .ok ()⟩

/-- A one-cell base mesh. -/
def meshW : BaseTreeMesh :=
  ⟨[1], [2], [1], (0, 0, 0), 4, [(0, 0, 0)], fun _ => 4⟩

/-! ## Theorems -/


/-- On a `.error` result, `parse_ignore_values` only ever reports the
uncaught `float` conversion error. -/
theorem parse_ignore_values_error (iv : Option String) (fo : Bool) (e : PyErr)
    (h : parse_ignore_values iv fo = .error e) : e = .floatConversionError := by
  unfold parse_ignore_values at h
  split at h
  · cases h
  · cases iv with
    | none => cases h
    | some s =>
      simp only at h
      split at h
      · split at h
        · cases h
        · cases h; rfl
      · split at h <;> cases h

/-- Every successful `parse_ignore_values` result is `(None, None)` or a
value paired with one of the types `"<"`, `">"`, `"="`. -/
theorem parse_ignore_values_shape (iv : Option String) (fo : Bool)
    (v : Option ℚ) (t : Option String)
    (h : parse_ignore_values iv fo = .ok (v, t)) :
    (v = none ∧ t = none) ∨
      (∃ x, v = some x ∧ (t = some "<" ∨ t = some ">" ∨ t = some "=")) := by
  unfold parse_ignore_values at h
  split at h
  · cases h; exact Or.inl ⟨rfl, rfl⟩
  · cases iv with
    | none => cases h; exact Or.inl ⟨rfl, rfl⟩
    | some s =>
      simp only at h
      cases hts : s.toList.filter (fun k => k == '<' || k == '>') with
      | nil =>
        rw [hts] at h
        simp only at h
        rw [if_neg (by decide)] at h
        split at h
        · cases h; exact Or.inr ⟨_, rfl, Or.inr (Or.inr rfl)⟩
        · cases h; exact Or.inl ⟨rfl, rfl⟩
      | cons k ks =>
        have hk : (k == '<' || k == '>') = true := by
          have hmem : k ∈ s.toList.filter (fun k => k == '<' || k == '>') := by
            rw [hts]; exact List.mem_cons_self _ _
          exact (List.mem_filter.mp hmem).2
        rw [hts] at h
        rcases Bool.or_eq_true_iff.mp hk with hk1 | hk1
        · have hkc : k = '<' := eq_of_beq hk1
          subst hkc
          simp only at h
          rw [if_pos (by decide)] at h
          split at h
          · cases h; exact Or.inr ⟨_, rfl, Or.inl (by decide)⟩
          · cases h
        · have hkc : k = '>' := eq_of_beq hk1
          subst hkc
          simp only at h
          rw [if_pos (by decide)] at h
          split at h
          · cases h; exact Or.inr ⟨_, rfl, Or.inr (Or.inl (by decide))⟩
          · cases h

/-- `applyIgnoreComp` cannot raise the `Unrecognized ignore type` error when
the ignore value is absent or the type is one of `"<"`, `">"`, `"="`. -/
theorem applyIgnoreComp_no_unrecognized (v : Option ℚ) (t : Option String)
    (c : CompData)
    (ht : v = none ∨ t = some "<" ∨ t = some ">" ∨ t = some "=")
    (e : Option String) :
    applyIgnoreComp v t c ≠ .error (.unrecognizedIgnoreType e) := by
  cases hu : c.uncert with
  | none => simp [applyIgnoreComp, hu]
  | some u =>
    cases v with
    | none => simp [applyIgnoreComp, hu]
    | some x =>
      rcases ht with h | h | h | h
      · exact absurd h (by simp)
      all_goals simp [applyIgnoreComp, hu, h]

/-- The component loop never raises an error that no component raises. -/
theorem setInfinityLoop_no_error (v : Option ℚ) (t : Option String)
    (e : PyErr) (he : ∀ c, applyIgnoreComp v t c ≠ .error e) :
    ∀ comps, setInfinityLoop v t comps ≠ .error e := by
  intro comps
  induction comps with
  | nil => simp [setInfinityLoop]
  | cons c rest ih =>
    simp only [setInfinityLoop]
    cases hc : applyIgnoreComp v t c with
    | error e' =>
      intro hcontra
      rw [Except.error.injEq] at hcontra
      exact he c (by rw [hc, hcontra])
    | ok c2 =>
      cases hr : setInfinityLoop v t rest with
      | error e' =>
        intro hcontra
        rw [Except.error.injEq] at hcontra
        exact ih (by rw [hr, hcontra])
      | ok rest2 => simp

/-- C9: the ignore type produced by `parse_ignore_values` is always one of
`None`, `"<"`, `">"`, `"="`, and consequently `set_infinity_uncertainties`
(which derives its ignore value and type from `parse_ignore_values`, as
`preprocess_data` does) can never reach its `Unrecognized ignore type`
`ValueError` branch. -/
theorem C9_unrecognized_branch_unreachable (iv : Option String) (fo : Bool)
    (comps : List CompData) :
    (∀ v t, parse_ignore_values iv fo = .ok (v, t) →
      t = none ∨ t = some "<" ∨ t = some ">" ∨ t = some "=") ∧
    (∀ e, set_infinity_uncertainties iv fo comps ≠
      .error (.unrecognizedIgnoreType e)) := by
  constructor
  · intro v t h
    rcases parse_ignore_values_shape iv fo v t h with ⟨_, h2⟩ | ⟨x, _, h2⟩
    · exact Or.inl h2
    · rcases h2 with h2 | h2 | h2
      · exact Or.inr (Or.inl h2)
      · exact Or.inr (Or.inr (Or.inl h2))
      · exact Or.inr (Or.inr (Or.inr h2))
  · intro e
    unfold set_infinity_uncertainties
    cases hp : parse_ignore_values iv fo with
    | error e' =>
      have := parse_ignore_values_error iv fo e' hp
      subst this
      simp
    | ok p =>
      simp only
      rcases parse_ignore_values_shape iv fo p.1 p.2 (by rw [hp]) with ⟨h1, _⟩ | ⟨x, h1, h2⟩
      · exact setInfinityLoop_no_error _ _ _
          (fun c => applyIgnoreComp_no_unrecognized _ _ c (Or.inl h1) _) comps
      · exact setInfinityLoop_no_error _ _ _
          (fun c => applyIgnoreComp_no_unrecognized _ _ c (Or.inr h2) _) comps

/-- C9 witness: a concrete run through the `"<"` branch. -/
theorem C9_witness :
    (∀ v t, parse_ignore_values (some "<3") false = .ok (v, t) →
      t = none ∨ t = some "<" ∨ t = some ">" ∨ t = some "=") ∧
    set_infinity_uncertainties (some "<3") false
        [⟨[some 1, some 5], some [some 9, some 9]⟩] ≠
      .error (.unrecognizedIgnoreType (some "<")) :=
  ⟨(C9_unrecognized_branch_unreachable (some "<3") false
      [⟨[some 1, some 5], some [some 9, some 9]⟩]).1,
   (C9_unrecognized_branch_unreachable (some "<3") false
      [⟨[some 1, some 5], some [some 9, some 9]⟩]).2 (some "<")⟩

/-- C8: `InputValidator.validate` raises `ValueError` for a `None` value of
a required parameter, returns without applying any value/type/shape/keys
check for a `None` value of a non-required parameter (the theorem holds for
every choice of the four check functions in `ctx`), and raises `ValueError`
for a non-`None` value whose parameter name is not a valid parameter. -/
theorem C8_validate_none_and_unknown {α : Type} (ctx : ValidatorContext α)
    (param : String) (v : α) :
    (param ∈ ctx.required_parameters →
      InputValidator.validate ctx param none =
        .error (.valueError (param ++ " is a required parameter. Cannot be None."))) ∧
    (param ∉ ctx.required_parameters →
      InputValidator.validate ctx param none = .ok ()) ∧
    (param ∉ ctx.valid_parameters →
      InputValidator.validate ctx param (some v) =
        .error (.valueError ("Encountered an invalid input parameter: " ++ param ++ "."))) := by
  refine ⟨fun h => ?_, fun h => ?_, fun h => ?_⟩ <;>
    simp [InputValidator.validate, h]

/-- C8 witness: the three branches at a concrete context. -/
theorem C8_validate_witness :
    InputValidator.validate ctxW "workspace" none =
      .error (.valueError "workspace is a required parameter. Cannot be None.") ∧
    InputValidator.validate ctxW "resolution" none = .ok () ∧
    InputValidator.validate ctxW "bogus" (some ()) =
      .error (.valueError "Encountered an invalid input parameter: bogus.") :=
  ⟨(C8_validate_none_and_unknown ctxW "workspace" ()).1 (by decide),
   (C8_validate_none_and_unknown ctxW "resolution" ()).2.1 (by decide),
   (C8_validate_none_and_unknown ctxW "bogus" ()).2.2 (by decide)⟩

/-- Composing two `zipWith`s that share their left list. -/
theorem zipWith_zipWith_same {α β γ δ : Type} (f : α → γ → δ) (g : α → β → γ)
    (l : List α) (l' : List β) :
    List.zipWith f l (List.zipWith g l l') =
      List.zipWith (fun a b => f a (g a b)) l l' := by
  induction l generalizing l' with
  | nil => simp
  | cons a as ih =>
    cases l' with
    | nil => simp
    | cons b bs => simp [ih]

/-- The NaN pass followed by the `data <= v` pass equals one combined pass. -/
theorem ignore_pass_lt (ival : ℚ) (vs us : List (Option ℚ)) :
    List.zipWith (fun d uu => if pyLe d ival then none else uu) vs
        (List.zipWith (fun d uu => if pyIsNan d then none else uu) vs us) =
      List.zipWith (fun d uu => if pyIsNan d || pyLe d ival then none else uu) vs us := by
  rw [zipWith_zipWith_same]
  have hfun : (fun (d uu : Option ℚ) =>
        if pyLe d ival then none else if pyIsNan d then none else uu) =
      (fun d uu => if pyIsNan d || pyLe d ival then none else uu) := by
    funext d uu
    cases d <;> simp [pyLe, pyIsNan]
  rw [hfun]

/-- The NaN pass followed by the `data >= v` pass equals one combined pass. -/
theorem ignore_pass_gt (ival : ℚ) (vs us : List (Option ℚ)) :
    List.zipWith (fun d uu => if pyGe d ival then none else uu) vs
        (List.zipWith (fun d uu => if pyIsNan d then none else uu) vs us) =
      List.zipWith (fun d uu => if pyIsNan d || pyGe d ival then none else uu) vs us := by
  rw [zipWith_zipWith_same]
  have hfun : (fun (d uu : Option ℚ) =>
        if pyGe d ival then none else if pyIsNan d then none else uu) =
      (fun d uu => if pyIsNan d || pyGe d ival then none else uu) := by
    funext d uu
    cases d <;> simp [pyGe, pyIsNan]
  rw [hfun]

/-- The NaN pass followed by the `data == v` pass equals one combined pass. -/
theorem ignore_pass_eq (ival : ℚ) (vs us : List (Option ℚ)) :
    List.zipWith (fun d uu => if pyEq d ival then none else uu) vs
        (List.zipWith (fun d uu => if pyIsNan d then none else uu) vs us) =
      List.zipWith (fun d uu => if pyIsNan d || pyEq d ival then none else uu) vs us := by
  rw [zipWith_zipWith_same]
  have hfun : (fun (d uu : Option ℚ) =>
        if pyEq d ival then none else if pyIsNan d then none else uu) =
      (fun d uu => if pyIsNan d || pyEq d ival then none else uu) := by
    funext d uu
    cases d <;> simp [pyEq, pyIsNan]
  rw [hfun]

/-- `parse_ignore_values` on a string without `'<'`/`'>'` takes the `'='`
branch. -/
theorem parse_ignore_values_eq_branch (s : String)
    (hts : s.toList.filter (fun c => c == '<' || c == '>') = []) :
    parse_ignore_values (some s) false =
      match pyFloat s with
      | some v => .ok (some v, some "=")
      | none => .ok (none, none) := by
  unfold parse_ignore_values
  rw [if_neg (by decide)]
  simp only [hts]
  rw [if_neg (by decide)]

/-- `parse_ignore_values` on a string whose first `'<'`/`'>'` character is
`k` splits on `k` and converts the second field. -/
theorem parse_ignore_values_angle (s : String) (k : Char) (ks : List Char)
    (hts : s.toList.filter (fun c => c == '<' || c == '>') = k :: ks) :
    parse_ignore_values (some s) false =
      match pyFloat (String.mk ((splitOnChar s.toList k).getD 1 [])) with
      | some v => .ok (some v, some (String.mk [k]))
      | none => .error .floatConversionError := by
  have hk : (k == '<' || k == '>') = true := by
    have hmem : k ∈ s.toList.filter (fun c => c == '<' || c == '>') := by
      rw [hts]; exact List.mem_cons_self _ _
    exact (List.mem_filter.mp hmem).2
  unfold parse_ignore_values
  rw [if_neg (by decide)]
  simp only [hts]
  rcases Bool.or_eq_true_iff.mp hk with hk1 | hk1
  · have hkc : k = '<' := eq_of_beq hk1
    subst hkc
    rw [if_pos (by decide), if_pos (by decide)]
  · have hkc : k = '>' := eq_of_beq hk1
    subst hkc
    rw [if_pos (by decide), if_neg (by decide)]

/-- C5 counterexample: the string `"<x"` cannot be parsed as a number, yet
`parse_ignore_values` does not return `(None, None)` on it — the `float`
call of the `'<'` branch is unguarded and its `ValueError` propagates. -/
theorem C5_counterexample :
    pyFloat "<x" = none ∧
    parse_ignore_values (some "<x") false ≠ .ok (none, none) ∧
    parse_ignore_values (some "<x") false = .error .floatConversionError := by
  refine ⟨rfl, ?_, rfl⟩
  have h : parse_ignore_values (some "<x") false = .error .floatConversionError := rfl
  rw [h]
  exact fun hc => Except.noConfusion hc

/-- `applyIgnoreComp` with type `"<"` in one pass: infinity exactly where
the data is NaN or `data <= value` (other uncertainty entries unchanged). -/
theorem applyIgnoreComp_lt (ival : ℚ) (c : CompData) (u : List (Option ℚ))
    (hu : c.uncert = some u) :
    applyIgnoreComp (some ival) (some "<") c =
      .ok ⟨c.values,
        some (List.zipWith (fun d uu => if pyIsNan d || pyLe d ival then none else uu)
          c.values u)⟩ := by
  simp only [applyIgnoreComp, hu]
  rw [if_pos (by decide), ignore_pass_lt]

/-- `applyIgnoreComp` with type `">"` in one pass. -/
theorem applyIgnoreComp_gt (ival : ℚ) (c : CompData) (u : List (Option ℚ))
    (hu : c.uncert = some u) :
    applyIgnoreComp (some ival) (some ">") c =
      .ok ⟨c.values,
        some (List.zipWith (fun d uu => if pyIsNan d || pyGe d ival then none else uu)
          c.values u)⟩ := by
  simp only [applyIgnoreComp, hu]
  rw [if_neg (by decide), if_pos (by decide), ignore_pass_gt]

/-- `applyIgnoreComp` with type `"="` in one pass. -/
theorem applyIgnoreComp_eq (ival : ℚ) (c : CompData) (u : List (Option ℚ))
    (hu : c.uncert = some u) :
    applyIgnoreComp (some ival) (some "=") c =
      .ok ⟨c.values,
        some (List.zipWith (fun d uu => if pyIsNan d || pyEq d ival then none else uu)
          c.values u)⟩ := by
  simp only [applyIgnoreComp, hu]
  rw [if_neg (by decide), if_neg (by decide), if_pos (by decide), ignore_pass_eq]

/-- C5 (amended): `parse_ignore_values` returns `(None, None)` when
`forward_only` holds, when `ignore_values` is `None`, or when the string
contains neither `'<'` nor `'>'` and cannot be parsed as a number; a string
whose first `'<'`/`'>'` character is `k` yields the float between the first
and second occurrence of `k` with `k` as type when that substring parses,
and raises `ValueError` otherwise; any other numeric string yields its
float value with type `'='`.  `set_infinity_uncertainties` derives value
and type from `parse_ignore_values` and sets each component's uncertainty
to infinity exactly where the data is NaN, plus (inclusively) where
`data <= value` for `'<'`, `data >= value` for `'>'`, `data == value` for
`'='`, leaving other entries unchanged. -/
theorem C5_parse_and_infinity_semantics (v : ℚ) :
    (∀ iv, parse_ignore_values iv true = .ok (none, none)) ∧
    parse_ignore_values none false = .ok (none, none) ∧
    (∀ s, s.toList.filter (fun c => c == '<' || c == '>') = [] →
      pyFloat s = none → parse_ignore_values (some s) false = .ok (none, none)) ∧
    (∀ s, s.toList.filter (fun c => c == '<' || c == '>') = [] →
      pyFloat s = some v →
      parse_ignore_values (some s) false = .ok (some v, some "=")) ∧
    (∀ s k ks, s.toList.filter (fun c => c == '<' || c == '>') = k :: ks →
      pyFloat (String.mk ((splitOnChar s.toList k).getD 1 [])) = some v →
      parse_ignore_values (some s) false = .ok (some v, some (String.mk [k]))) ∧
    (∀ s k ks, s.toList.filter (fun c => c == '<' || c == '>') = k :: ks →
      pyFloat (String.mk ((splitOnChar s.toList k).getD 1 [])) = none →
      parse_ignore_values (some s) false = .error .floatConversionError) ∧
    (∀ iv fo p comps, parse_ignore_values iv fo = .ok p →
      set_infinity_uncertainties iv fo comps = setInfinityLoop p.1 p.2 comps) ∧
    (∀ c, c.uncert = none → ∀ val ty, applyIgnoreComp val ty c = .ok c) ∧
    (∀ c u, c.uncert = some u → applyIgnoreComp none none c =
      .ok ⟨c.values,
        some (List.zipWith (fun d uu => if pyIsNan d then none else uu) c.values u)⟩) ∧
    (∀ ival c u, c.uncert = some u → applyIgnoreComp (some ival) (some "<") c =
      .ok ⟨c.values,
        some (List.zipWith (fun d uu => if pyIsNan d || pyLe d ival then none else uu)
          c.values u)⟩) ∧
    (∀ ival c u, c.uncert = some u → applyIgnoreComp (some ival) (some ">") c =
      .ok ⟨c.values,
        some (List.zipWith (fun d uu => if pyIsNan d || pyGe d ival then none else uu)
          c.values u)⟩) ∧
    (∀ ival c u, c.uncert = some u → applyIgnoreComp (some ival) (some "=") c =
      .ok ⟨c.values,
        some (List.zipWith (fun d uu => if pyIsNan d || pyEq d ival then none else uu)
          c.values u)⟩) := by
  refine ⟨fun iv => by simp [parse_ignore_values], rfl,
    fun s hts hf => ?_, fun s hts hf => ?_,
    fun s k ks hts hf => ?_, fun s k ks hts hf => ?_,
    fun iv fo p comps hp => by simp [set_infinity_uncertainties, hp],
    fun c hc val ty => by simp [applyIgnoreComp, hc],
    fun c u hu => by simp [applyIgnoreComp, hu],
    applyIgnoreComp_lt, applyIgnoreComp_gt, applyIgnoreComp_eq⟩
  · rw [parse_ignore_values_eq_branch s hts, hf]
  · rw [parse_ignore_values_eq_branch s hts, hf]
  · rw [parse_ignore_values_angle s k ks hts, hf]
  · rw [parse_ignore_values_angle s k ks hts, hf]

/-- C5 witness: concrete runs through the branches of the amended claim. -/
theorem C5_witness :
    parse_ignore_values (some "<3") false = .ok (some 3, some "<") ∧
    parse_ignore_values (some "7") false = .ok (some 7, some "=") ∧
    parse_ignore_values (some "abc") false = .ok (none, none) ∧
    applyIgnoreComp (some 3) (some "<") ⟨[some 1, some 5, none], some [some 9, some 9, some 9]⟩ =
      .ok ⟨[some 1, some 5, none],
        some (List.zipWith (fun d uu => if pyIsNan d || pyLe d 3 then none else uu)
          [some 1, some 5, none] [some 9, some 9, some 9])⟩ := by
  refine ⟨?_, ?_, ?_, ?_⟩
  · have h := (C5_parse_and_infinity_semantics 3).2.2.2.2.1 "<3" '<' [] (by decide) (by decide)
    simpa using h
  · have h := (C5_parse_and_infinity_semantics 7).2.2.2.1 "7" (by decide) (by decide)
    simpa using h
  · exact (C5_parse_and_infinity_semantics 0).2.2.1 "abc" (by decide) (by decide)
  · exact (C5_parse_and_infinity_semantics 0).2.2.2.2.2.2.2.2.2.1 3
      ⟨[some 1, some 5, none], some [some 9, some 9, some 9]⟩ [some 9, some 9, some 9] rfl

/-- C1 counterexample: a concrete input on which `preprocess_data` (which
applies ignore-value processing before detrending) differs from the
window-detrend-ignore order asserted by the claim: detrending first changes
the values compared against the ignore value, so different uncertainties
are set to infinity. -/
theorem C1_counterexample :
    preprocess_data id (fun _ _ => [2]) false (some "1") (some "all") (some (.int 0))
        ⟨[⟨[some 1, some 3], some [some 7, some 7]⟩], [(0, 0), (1, 0)]⟩ ≠
      preprocess_data_spec_order id (fun _ _ => [2]) false (some "1") (some "all")
        (some (.int 0))
        ⟨[⟨[some 1, some 3], some [some 7, some 7]⟩], [(0, 0), (1, 0)]⟩ := by
  decide

/-- C1 (amended): for every input, `preprocess_data` applies the
preprocessing steps in the order windowing, then ignore-value processing,
then detrending, each later step operating on the output of the earlier
ones (the ignore step on the windowed components, the detrend step on the
ignore step's output and the windowed locations). -/
theorem C1_pipeline_window_ignore_detrend (window : WindowFn) (lstsq : LstsqFn)
    (fo : Bool) (iv dt : Option String) (dO : Option PyOrder) (d : PreData) :
    preprocess_data window lstsq fo iv dt dO d =
      Except.bind
        (if iv ≠ none then set_infinity_uncertainties iv fo (window d).comps
         else .ok (window d).comps)
        (fun comps2 =>
          Except.bind
            (if dt ≠ none ∧ dO ≠ none then
              detrend_data lstsq dt dO comps2 (window d).locations
             else .ok comps2)
            (fun comps3 => .ok ⟨comps3, (window d).locations⟩)) := by
  unfold preprocess_data
  simp only
  cases hig : (if iv ≠ none then set_infinity_uncertainties iv fo (window d).comps
      else Except.ok (window d).comps) with
  | error e => simp [Except.bind]
  | ok comps2 =>
    cases hdt : (if dt ≠ none ∧ dO ≠ none then
        detrend_data lstsq dt dO comps2 (window d).locations
      else Except.ok comps2) with
    | error e => simp [hdt, Except.bind]
    | ok comps3 => simp [hdt, Except.bind]

/-- `argminBy` returns an element of a non-empty list. -/
theorem argminBy_mem (f : ℕ → ℚ) : ∀ (l : List ℕ), l ≠ [] → argminBy f l ∈ l
  | [], h => absurd rfl h
  | [a], _ => by simp [argminBy]
  | a :: b :: rest, _ => by
    have ih := argminBy_mem f (b :: rest) (by simp)
    simp only [argminBy]
    split
    · exact List.mem_cons_self _ _
    · exact List.mem_cons_of_mem _ ih

/-- `argminBy` attains the minimum of `f` over the list. -/
theorem argminBy_le (f : ℕ → ℚ) : ∀ (l : List ℕ) (b : ℕ), b ∈ l → f (argminBy f l) ≤ f b
  | [], b, hb => absurd hb (by simp)
  | [a], b, hb => by
    rcases List.mem_singleton.mp hb with rfl
    simp [argminBy]
  | a :: c :: rest, b, hb => by
    have ih := argminBy_le f (c :: rest)
    simp only [argminBy]
    rcases List.mem_cons.mp hb with rfl | hb2
    · split
      · exact le_refl _
      · next hlt => exact le_of_lt (lt_of_not_le hlt)
    · split
      · next hle => exact le_trans hle (ih b hb2)
      · exact ih b hb2

/-- `argmaxBy` returns an element of a non-empty list. -/
theorem argmaxBy_mem (f : ℕ → ℚ) : ∀ (l : List ℕ), l ≠ [] → argmaxBy f l ∈ l
  | [], h => absurd rfl h
  | [a], _ => by simp [argmaxBy]
  | a :: b :: rest, _ => by
    have ih := argmaxBy_mem f (b :: rest) (by simp)
    simp only [argmaxBy]
    split
    · exact List.mem_cons_self _ _
    · exact List.mem_cons_of_mem _ ih

/-- `argmaxBy` attains the maximum of `f` over the list. -/
theorem argmaxBy_ge (f : ℕ → ℚ) : ∀ (l : List ℕ) (b : ℕ), b ∈ l → f b ≤ f (argmaxBy f l)
  | [], b, hb => absurd hb (by simp)
  | [a], b, hb => by
    rcases List.mem_singleton.mp hb with rfl
    simp [argmaxBy]
  | a :: c :: rest, b, hb => by
    have ih := argmaxBy_ge f (c :: rest)
    simp only [argmaxBy]
    rcases List.mem_cons.mp hb with rfl | hb2
    · split
      · exact le_refl _
      · next hlt => exact le_of_lt (lt_of_not_le hlt)
    · split
      · next hle => exact le_trans (ih b hb2) hle
      · exact ih b hb2

/-- The nearest-neighbour loop visits exactly the remaining indices, in
some order: with fuel equal to the number of remaining indices its output
is a permutation of them. -/
theorem tsLoop_perm (locs : List (ℚ × ℚ)) :
    ∀ (n : ℕ) (remaining : List ℕ) (current : ℕ), remaining.length = n →
      (tsLoop locs n current remaining).Perm remaining := by
  intro n
  induction n with
  | zero =>
    intro remaining current h
    rw [List.length_eq_zero] at h
    subst h
    exact List.Perm.refl _
  | succ k ih =>
    intro remaining current h
    have hne : remaining ≠ [] := by
      intro e; subst e; simp at h
    have hmem : argminBy (fun j => sqDist (locs.getD current (0, 0)) (locs.getD j (0, 0)))
        remaining ∈ remaining := argminBy_mem _ _ hne
    have hlen : (remaining.erase (argminBy
        (fun j => sqDist (locs.getD current (0, 0)) (locs.getD j (0, 0))) remaining)).length = k := by
      rw [List.length_erase_of_mem hmem, h]
      rfl
    refine List.Perm.trans (List.Perm.cons _ (ih _ _ hlen)) ?_
    exact (List.perm_cons_erase hmem).symm

/-- C10: on a non-empty point set, `traveling_salesman` returns a
permutation of `{0, ..., n-1}` (each index appears exactly once), and its
first element is an index whose point is at maximal xy-distance from the
mean location (squared distances order the same way as distances). -/
theorem C10_traveling_salesman_perm (locs : List (ℚ × ℚ)) (h : locs ≠ []) :
    (traveling_salesman locs).Perm (List.range locs.length) ∧
    ∀ j, j < locs.length →
      sqDist (locs.getD j (0, 0)) (tsMean locs) ≤
        sqDist (locs.getD ((traveling_salesman locs).headI) (0, 0)) (tsMean locs) := by
  have hn : 0 < locs.length := List.length_pos.mpr h
  have hrange : (List.range locs.length) ≠ [] := by
    intro e
    rw [List.range_eq_nil] at e
    omega
  constructor
  · simp only [traveling_salesman]
    set c := argmaxBy (fun i => sqDist (locs.getD i (0, 0)) (tsMean locs))
      (List.range locs.length) with hc
    have hcur : c ∈ List.range locs.length := argmaxBy_mem _ _ hrange
    have hfilter : (List.range locs.length).filter (fun j => j != c) =
        (List.range locs.length).erase c :=
      ((List.nodup_range _).erase_eq_filter c).symm
    have hlen : ((List.range locs.length).erase c).length = locs.length - 1 := by
      rw [List.length_erase_of_mem hcur, List.length_range]
    rw [hfilter]
    refine List.Perm.trans (List.Perm.cons _ (tsLoop_perm locs _ _ _ hlen)) ?_
    exact (List.perm_cons_erase hcur).symm
  · intro j hj
    simp only [traveling_salesman, List.headI]
    exact argmaxBy_ge (fun i => sqDist (locs.getD i (0, 0)) (tsMean locs))
      (List.range locs.length) j (List.mem_range.mpr hj)

/-- C10 witness: a concrete four-point survey line. -/
theorem C10_traveling_salesman_witness :
    (traveling_salesman [((0 : ℚ), (0 : ℚ)), (2, 0), (1, 0), (5, 0)]).Perm
      (List.range ([((0 : ℚ), (0 : ℚ)), (2, 0), (1, 0), (5, 0)] : List (ℚ × ℚ)).length) ∧
    ∀ j, j < ([((0 : ℚ), (0 : ℚ)), (2, 0), (1, 0), (5, 0)] : List (ℚ × ℚ)).length →
      sqDist ([((0 : ℚ), (0 : ℚ)), (2, 0), (1, 0), (5, 0)].getD j (0, 0))
          (tsMean [((0 : ℚ), (0 : ℚ)), (2, 0), (1, 0), (5, 0)]) ≤
        sqDist ([((0 : ℚ), (0 : ℚ)), (2, 0), (1, 0), (5, 0)].getD
            ((traveling_salesman [((0 : ℚ), (0 : ℚ)), (2, 0), (1, 0), (5, 0)]).headI) (0, 0))
          (tsMean [((0 : ℚ), (0 : ℚ)), (2, 0), (1, 0), (5, 0)]) :=
  C10_traveling_salesman_perm [((0 : ℚ), (0 : ℚ)), (2, 0), (1, 0), (5, 0)] (by decide)

/-- Indices at least `i` in `range n` number `n - i`. -/
theorem length_filter_range_le (i : ℕ) : ∀ n : ℕ,
    ((List.range n).filter (fun j => decide (i ≤ j))).length = n - i := by
  intro n
  induction n with
  | zero => simp
  | succ k ih =>
    rw [List.range_succ, List.filter_append, List.length_append, ih]
    by_cases h : i ≤ k
    · simp [List.filter_singleton, h]
      omega
    · simp [List.filter_singleton, h]
      omega

/-- Twice the sum of `n - i` over `i < n` is `n * (n + 1)`. -/
theorem two_mul_sum_range_sub (n : ℕ) :
    2 * ((List.range n).map (fun i => n - i)).sum = n * (n + 1) := by
  have hb : ((List.range n).map (fun i => n - i)).sum = ∑ i in Finset.range n, (n - i) := rfl
  have hrefl : ∑ j in Finset.range n, (n - (n - 1 - j)) = ∑ j in Finset.range n, (n - j) :=
    Finset.sum_range_reflect (fun j => n - j) n
  have hpt : ∑ j in Finset.range n, (n - (n - 1 - j)) = ∑ j in Finset.range n, (j + 1) := by
    apply Finset.sum_congr rfl
    intro j hj
    have := Finset.mem_range.mp hj
    omega
  have hadd : ∑ j in Finset.range n, (j + 1) = (∑ j in Finset.range n, j) + n := by
    rw [Finset.sum_add_distrib, Finset.sum_const, Finset.card_range, smul_eq_mul, mul_one]
  rw [hb, ← hrefl, hpt, hadd]
  cases n with
  | zero => simp
  | succ m =>
    have hg2 : (∑ i in Finset.range (m + 1), i) * 2 = (m + 1) * m := by
      rw [Finset.sum_range_id_mul_two]
      simp
    calc 2 * ((∑ i in Finset.range (m + 1), i) + (m + 1))
        = (∑ i in Finset.range (m + 1), i) * 2 + 2 * (m + 1) := by ring
      _ = (m + 1) * m + 2 * (m + 1) := by rw [hg2]
      _ = (m + 1) * (m + 1 + 1) := by ring

/-- The trend polynomial has `(order+1)(order+2)/2` coefficients. -/
theorem nCoeffs_formula (o : ℕ) : nCoeffs o = (o + 1) * (o + 2) / 2 := by
  have hlen : nCoeffs o = ((List.range (o + 1)).map (fun i => (o + 1) - i)).sum := by
    unfold nCoeffs triuIndices
    rw [List.length_flatMap]
    congr 1
    apply List.map_congr_left
    intro i hi
    simp only [Function.comp_apply]
    rw [List.length_map, length_filter_range_le]
  have h2 : 2 * nCoeffs o = (o + 1) * (o + 2) := by
    rw [hlen, two_mul_sum_range_sub]
  omega

/-- A negative order raises the order `ValueError` immediately. -/
theorem calculate_2D_trend_neg_order (lstsq : LstsqFn) (p : List (ℚ × ℚ))
    (v : List (Option ℚ)) (z : ℤ) (hz : z < 0) (m : String) :
    calculate_2D_trend lstsq p v (.int z) m =
      .error (.valueError "Polynomial order should be an integer > 0.") := by
  simp [calculate_2D_trend, hz]

/-- With a valid order and the `perimeter` method, a successful hull reduces
`calculate_2D_trend` to `trendResult` on the hull data. -/
theorem calculate_2D_trend_perimeter (lstsq : LstsqFn) (p : List (ℚ × ℚ))
    (v : List (Option ℚ)) (z : ℤ) (hz : ¬z < 0) (hidx : List ℕ)
    (hh : convexHullVertices (filteredLocs p v) = some hidx) :
    calculate_2D_trend lstsq p v (.int z) "perimeter" =
      trendResult lstsq z.toNat p (hullLocs p v hidx) (hullVals p v hidx) := by
  simp [calculate_2D_trend, hz, hh]

/-- With a valid order and the `perimeter` method, a degenerate hull raises
`QhullError`. -/
theorem calculate_2D_trend_qhull (lstsq : LstsqFn) (p : List (ℚ × ℚ))
    (v : List (Option ℚ)) (z : ℤ) (hz : ¬z < 0)
    (hh : convexHullVertices (filteredLocs p v) = none) :
    calculate_2D_trend lstsq p v (.int z) "perimeter" = .error .qhullError := by
  simp [calculate_2D_trend, hz, hh]

/-- With a valid order and the `all` method, `calculate_2D_trend` reduces
to `trendResult` on all NaN-filtered data. -/
theorem calculate_2D_trend_all (lstsq : LstsqFn) (p : List (ℚ × ℚ))
    (v : List (Option ℚ)) (z : ℤ) (hz : ¬z < 0) :
    calculate_2D_trend lstsq p v (.int z) "all" =
      trendResult lstsq z.toNat p (filteredLocs p v) (filteredVals p v) := by
  simp [calculate_2D_trend, hz]

/-- With a valid order and a method that is neither `all` nor `perimeter`,
the method `ValueError` is raised. -/
theorem calculate_2D_trend_bad_method (lstsq : LstsqFn) (p : List (ℚ × ℚ))
    (v : List (Option ℚ)) (z : ℤ) (hz : ¬z < 0) (m : String)
    (hm1 : m ≠ "perimeter") (hm2 : m ≠ "all") :
    calculate_2D_trend lstsq p v (.int z) m =
      .error (.valueError "method must be either all, or perimeter.") := by
  simp [calculate_2D_trend, hz, hm1, hm2]

/-- `trendResult` raises a `ValueError` exactly when the fitting-point
count is at most the coefficient count. -/
theorem trendResult_valueError_iff (lstsq : LstsqFn) (o : ℕ)
    (points loc_xy : List (ℚ × ℚ)) (vals : List ℚ) :
    (∃ m, trendResult lstsq o points loc_xy vals = .error (.valueError m)) ↔
      loc_xy.length ≤ nCoeffs o := by
  by_cases h : loc_xy.length ≤ nCoeffs o
  · simp [trendResult, h]
  · simp [trendResult, h]

/-- C6: `calculate_2D_trend` raises `ValueError` exactly when the order is
not an integer or is negative (order 0 is accepted), or the method is
neither `all` nor `perimeter`, or the number of fitting points (after NaN
filtering and, for `perimeter`, restriction to the hull corners) is not
strictly greater than the number of polynomial coefficients, which equals
`(order+1)(order+2)/2`.  The hypothesis excludes the degenerate-hull runs
on which `ConvexHull` itself raises `QhullError` and the fitting-point set
of the claim is undefined. -/
theorem C6_trend_valueError_iff (lstsq : LstsqFn) (points : List (ℚ × ℚ))
    (values : List (Option ℚ)) (order : PyOrder) (method : String)
    (hhull : method = "perimeter" →
      convexHullVertices (filteredLocs points values) ≠ none) :
    ((∃ m, calculate_2D_trend lstsq points values order method = .error (.valueError m)) ↔
      (order = .nonInt ∨ (∃ z, order = .int z ∧ z < 0) ∨
        (method ≠ "all" ∧ method ≠ "perimeter") ∨
        fittingCount points values method ≤ nCoeffs (orderNat order))) ∧
    (∀ o : ℕ, nCoeffs o = (o + 1) * (o + 2) / 2) := by
  refine ⟨?_, nCoeffs_formula⟩
  cases order with
  | nonInt =>
    constructor
    · intro _
      exact Or.inl rfl
    · intro _
      exact ⟨_, rfl⟩
  | int z =>
    by_cases hz : z < 0
    · constructor
      · intro _
        exact Or.inr (Or.inl ⟨z, rfl, hz⟩)
      · intro _
        exact ⟨_, calculate_2D_trend_neg_order lstsq points values z hz method⟩
    · by_cases hm1 : method = "perimeter"
      · subst hm1
        obtain ⟨hidx, hh⟩ : ∃ h, convexHullVertices (filteredLocs points values) = some h := by
          cases hcv : convexHullVertices (filteredLocs points values) with
          | none => exact absurd hcv (hhull rfl)
          | some h => exact ⟨h, rfl⟩
        rw [calculate_2D_trend_perimeter lstsq points values z hz hidx hh,
          trendResult_valueError_iff]
        have hfc : fittingCount points values "perimeter" = hidx.length := by
          simp [fittingCount, hh]
        have hlen : (hullLocs points values hidx).length = hidx.length := by
          simp [hullLocs]
        rw [hlen]
        constructor
        · intro hcount
          exact Or.inr (Or.inr (Or.inr (by rw [hfc]; exact hcount)))
        · rintro (h | ⟨z', hz', hlt⟩ | ⟨_, habs⟩ | h4)
          · cases h
          · cases hz'
            exact absurd hlt hz
          · exact absurd rfl habs
          · rw [hfc] at h4
            exact h4
      · by_cases hm2 : method = "all"
        · subst hm2
          rw [calculate_2D_trend_all lstsq points values z hz, trendResult_valueError_iff]
          have hfc : fittingCount points values "all" =
              (filteredLocs points values).length := by
            simp [fittingCount]
          constructor
          · intro h
            exact Or.inr (Or.inr (Or.inr (by rw [hfc]; exact h)))
          · rintro (h | ⟨z', hz', hlt⟩ | ⟨habs, _⟩ | h4)
            · cases h
            · cases hz'
              exact absurd hlt hz
            · exact absurd rfl habs
            · rw [hfc] at h4
              exact h4
        · rw [calculate_2D_trend_bad_method lstsq points values z hz method hm1 hm2]
          constructor
          · intro _
            exact Or.inr (Or.inr (Or.inl ⟨hm2, hm1⟩))
          · intro _
            exact ⟨_, rfl⟩

/-- C6 witness: order 0 with the `all` method and a single non-NaN point,
which trips the coefficient-count check. -/
theorem C6_trend_valueError_witness :
    ((∃ m, calculate_2D_trend (fun _ _ => [0]) [((0 : ℚ), (0 : ℚ)), (1, 0)]
        [some 1, none] (.int 0) "all" = .error (.valueError m)) ↔
      ((.int 0 : PyOrder) = .nonInt ∨ (∃ z, (.int 0 : PyOrder) = .int z ∧ z < 0) ∨
        (("all" : String) ≠ "all" ∧ ("all" : String) ≠ "perimeter") ∨
        fittingCount [((0 : ℚ), (0 : ℚ)), (1, 0)] [some 1, none] "all" ≤
          nCoeffs (orderNat (.int 0)))) ∧
    (∀ o : ℕ, nCoeffs o = (o + 1) * (o + 2) / 2) :=
  C6_trend_valueError_iff (fun _ _ => [0]) [((0 : ℚ), (0 : ℚ)), (1, 0)] [some 1, none]
    (.int 0) "all" (fun h => absurd h (by decide))

/-- `getD` through `map` at an in-range index. -/
theorem getD_map_lt {α β : Type} (f : α → β) (l : List α) (j : ℕ)
    (hj : j < l.length) (d : α) (d' : β) :
    (l.map f).getD j d' = f (l.getD j d) := by
  rw [List.getD_eq_getElem _ _ (by simpa using hj), List.getElem_map,
    List.getD_eq_getElem _ _ hj]

/-- C2: with the `perimeter` method (non-degenerate hull, enough non-NaN
fitting points, nonzero total weight), `calculate_2D_trend` fits the
coefficients by handing the least-squares solver only the convex-hull
corners of the NaN-filtered points, yet returns a trend with one entry per
input point (NaN-valued ones included), each the fitted polynomial
`trendAt` evaluated at that point's coordinates shifted by the
`|value|`-weighted centre of mass `trendCenter`. -/
theorem C2_perimeter_trend (lstsq : LstsqFn) (points : List (ℚ × ℚ))
    (values : List (Option ℚ)) (o : ℕ) (hidx : List ℕ)
    (hhull : convexHullVertices (filteredLocs points values) = some hidx)
    (hcount : nCoeffs o < hidx.length)
    (hmass : ((hullVals points values hidx).map (fun v => |v|)).sum ≠ 0) :
    ∃ center params trend,
      center = trendCenter (hullLocs points values hidx) (hullVals points values hidx) ∧
      params = lstsq (designMatrix o center (hullLocs points values hidx))
        (hullVals points values hidx) ∧
      trend = points.map (trendAt o center params) ∧
      calculate_2D_trend lstsq points values (.int (o : ℤ)) "perimeter" =
        .ok (trend, params) ∧
      trend.length = points.length ∧
      ∀ j, j < points.length →
        trend.getD j 0 = trendAt o center params (points.getD j (0, 0)) := by
  refine ⟨_, _, _, rfl, rfl, rfl, ?_, by simp, ?_⟩
  · have hz : ¬((o : ℤ) < 0) := by omega
    rw [calculate_2D_trend_perimeter lstsq points values (o : ℤ) hz hidx hhull,
      Int.toNat_natCast]
    have hnotle : ¬((hullLocs points values hidx).length ≤ nCoeffs o) := by
      have hlen : (hullLocs points values hidx).length = hidx.length := by
        simp [hullLocs]
      rw [hlen]
      omega
    simp [trendResult, hnotle]
  · intro j hj
    exact getD_map_lt _ _ j hj (0, 0) 0

/-- C2 witness: a triangle with an interior point and a NaN-valued point. -/
theorem C2_perimeter_trend_witness :
    ∃ center params trend,
      center = trendCenter
        (hullLocs [((0 : ℚ), (0 : ℚ)), (4, 0), (0, 4), (1, 1), (9, 9)]
          [some 1, some 1, some 1, some 5, none] [0, 1, 2])
        (hullVals [((0 : ℚ), (0 : ℚ)), (4, 0), (0, 4), (1, 1), (9, 9)]
          [some 1, some 1, some 1, some 5, none] [0, 1, 2]) ∧
      params = (fun _ _ => [2] : LstsqFn)
        (designMatrix 0 center
          (hullLocs [((0 : ℚ), (0 : ℚ)), (4, 0), (0, 4), (1, 1), (9, 9)]
            [some 1, some 1, some 1, some 5, none] [0, 1, 2]))
        (hullVals [((0 : ℚ), (0 : ℚ)), (4, 0), (0, 4), (1, 1), (9, 9)]
          [some 1, some 1, some 1, some 5, none] [0, 1, 2]) ∧
      trend = [((0 : ℚ), (0 : ℚ)), (4, 0), (0, 4), (1, 1), (9, 9)].map
        (trendAt 0 center params) ∧
      calculate_2D_trend (fun _ _ => [2]) [((0 : ℚ), (0 : ℚ)), (4, 0), (0, 4), (1, 1), (9, 9)]
        [some 1, some 1, some 1, some 5, none] (.int (0 : ℕ)) "perimeter" =
        .ok (trend, params) ∧
      trend.length = [((0 : ℚ), (0 : ℚ)), (4, 0), (0, 4), (1, 1), (9, 9)].length ∧
      ∀ j, j < [((0 : ℚ), (0 : ℚ)), (4, 0), (0, 4), (1, 1), (9, 9)].length →
        trend.getD j 0 = trendAt 0 center params
          ([((0 : ℚ), (0 : ℚ)), (4, 0), (0, 4), (1, 1), (9, 9)].getD j (0, 0)) :=
  C2_perimeter_trend (fun _ _ => [2]) [((0 : ℚ), (0 : ℚ)), (4, 0), (0, 4), (1, 1), (9, 9)]
    [some 1, some 1, some 1, some 5, none] 0 [0, 1, 2] (by decide) (by decide) (by decide)

/-- C7: `create_nested_mesh` raises `ValueError` for every method other
than `convex_hull` and `padding_cells`; and when the Delaunay triangulation
of the survey fails (`QhullError`), the `convex_hull` method does not fail:
it emits the qhull warning and returns exactly the mesh the
`padding_cells` method builds. -/
theorem C7_nested_mesh_methods (delaunay : DelaunayFn) (locations : List (ℚ × ℚ × ℚ))
    (bm : BaseTreeMesh) (method : String) (pc ml : ℕ) (fin : Bool) :
    (method ≠ "convex_hull" → method ≠ "padding_cells" →
      create_nested_mesh delaunay locations bm method pc ml fin =
        .error (.valueError "Input method must be one of convex_hull or padding_cells.")) ∧
    (delaunay (locations.map xy3) = none →
      ∃ m, create_nested_mesh delaunay locations bm "convex_hull" pc ml fin =
          .ok ([qhullWarning], m) ∧
        create_nested_mesh delaunay locations bm "padding_cells" pc ml fin =
          .ok ([], m)) := by
  constructor
  · intro h1 h2
    simp [create_nested_mesh, h1, h2]
  · intro hd
    refine ⟨paddingFinish bm locations
      (insertCells ⟨(bm.hx, bm.hy, bm.hz), bm.x0, [], false⟩ (baseBatch bm ml) false)
      pc ml fin, ?_, ?_⟩
    · simp [create_nested_mesh, hd]
    · simp [create_nested_mesh]

/-- C7 witness: an invalid method name, and a Delaunay failure falling back
to the padding refinement. -/
theorem C7_nested_mesh_methods_witness :
    create_nested_mesh (fun _ => none) [((0 : ℚ), (0 : ℚ), (0 : ℚ))] meshW "foo" 1 2 true =
      .error (.valueError "Input method must be one of convex_hull or padding_cells.") ∧
    ∃ m, create_nested_mesh (fun _ => none) [((0 : ℚ), (0 : ℚ), (0 : ℚ))] meshW
        "convex_hull" 1 2 true = .ok ([qhullWarning], m) ∧
      create_nested_mesh (fun _ => none) [((0 : ℚ), (0 : ℚ), (0 : ℚ))] meshW
        "padding_cells" 1 2 true = .ok ([], m) :=
  ⟨(C7_nested_mesh_methods (fun _ => none) [((0 : ℚ), (0 : ℚ), (0 : ℚ))] meshW "foo" 1 2
      true).1 (by decide) (by decide),
   (C7_nested_mesh_methods (fun _ => none) [((0 : ℚ), (0 : ℚ), (0 : ℚ))] meshW
      "convex_hull" 1 2 true).2 rfl⟩

/-- Closed form of the cumulative padding distance:
`sum of base_cell * 2^i * padding for i < k` is
`base_cell * padding * (2^k - 1)`. -/
theorem padCum_closed (bc pad : ℚ) : ∀ k : ℕ,
    padCum bc pad k = bc * pad * (2 ^ k - 1) := by
  intro k
  induction k with
  | zero => simp [padCum]
  | succ n ih =>
    rw [padCum, ih, pow_succ]
    ring

/-- The padding loop threads the cumulative distance `padCum` and appends
one `paddingBatch` per pass. -/
theorem paddingLoop_trace (bm : BaseTreeMesh) (locs : List (ℚ × ℚ)) (bc pad : ℚ) :
    ∀ (n : ℕ) (m0 : NestedTreeMesh),
      (paddingLoop bm locs bc pad n m0).1 = padCum bc pad n ∧
      (paddingLoop bm locs bc pad n m0).2 =
        { m0 with insertions := m0.insertions ++
            (List.range n).map (fun i => paddingBatch bm locs (padCum bc pad (i + 1)) i) } := by
  intro n
  induction n with
  | zero =>
    intro m0
    constructor
    · rfl
    · simp [paddingLoop]
  | succ k ih =>
    intro m0
    rcases ih m0 with ⟨ih1, ih2⟩
    simp only [paddingLoop] at ih1 ih2 ⊢
    rw [List.range_succ, List.foldl_append, List.foldl_cons, List.foldl_nil]
    constructor
    · simp only [ih1, ih2]
      rfl
    · rw [List.map_append, List.map_singleton, ih1, ih2]
      simp [insertCells, padCum, List.append_assoc]

/-- C4: with `method='padding_cells'`, `create_nested_mesh` performs
exactly `minimum_level` refinement passes after the base insertion; at
pass `i` the cumulative padding distance equals
`padding_cells * base_cell * (2^(i+1) - 1)`, where `base_cell` is the
smaller of the first x and y cell widths, and the pass inserts the base
cells whose stretched distance to the nearest survey location is below
that threshold with levels capped at `max_level - i` (the cap is carried
inside `paddingBatch`). -/
theorem C4_padding_cells_refinement (delaunay : DelaunayFn)
    (locations : List (ℚ × ℚ × ℚ)) (bm : BaseTreeMesh) (pc ml : ℕ) (fin : Bool)
    (warns : List String) (m : NestedTreeMesh)
    (hok : create_nested_mesh delaunay locations bm "padding_cells" pc ml fin =
      .ok (warns, m)) :
    m.insertions =
      baseBatch bm ml ::
        (List.range ml).map (fun i =>
          paddingBatch bm (locations.map xy3)
            ((pc : ℚ) * baseCellWidth bm * (2 ^ (i + 1) - 1)) i) ∧
    m.insertions.length = ml + 1 ∧
    (∀ i : ℕ, padCum (baseCellWidth bm) (pc : ℚ) (i + 1) =
      (pc : ℚ) * baseCellWidth bm * (2 ^ (i + 1) - 1)) := by
  have hrun : create_nested_mesh delaunay locations bm "padding_cells" pc ml fin =
      .ok ([], paddingFinish bm locations
        (insertCells ⟨(bm.hx, bm.hy, bm.hz), bm.x0, [], false⟩ (baseBatch bm ml) false)
        pc ml fin) := by
    simp [create_nested_mesh]
  rw [hrun] at hok
  have hm : m = paddingFinish bm locations
      (insertCells ⟨(bm.hx, bm.hy, bm.hz), bm.x0, [], false⟩ (baseBatch bm ml) false)
      pc ml fin := by
    have := Except.ok.inj hok
    exact ((Prod.mk.injEq _ _ _ _ ▸ this).2).symm
  have hclosed : ∀ i : ℕ, padCum (baseCellWidth bm) (pc : ℚ) (i + 1) =
      (pc : ℚ) * baseCellWidth bm * (2 ^ (i + 1) - 1) := by
    intro i
    rw [padCum_closed]
    ring
  refine ⟨?_, ?_, hclosed⟩
  · have htr := (paddingLoop_trace bm (locations.map xy3) (baseCellWidth bm) (pc : ℚ) ml
      (insertCells ⟨(bm.hx, bm.hy, bm.hz), bm.x0, [], false⟩ (baseBatch bm ml) false)).2
    have hins : m.insertions = (paddingLoop bm (locations.map xy3) (baseCellWidth bm)
        (pc : ℚ) ml
        (insertCells ⟨(bm.hx, bm.hy, bm.hz), bm.x0, [], false⟩ (baseBatch bm ml) false)).2.insertions := by
      rw [hm]
      unfold paddingFinish
      cases fin <;> simp
    rw [hins, htr]
    simp only [insertCells]
    rw [List.map_congr_left (fun i _ => by rw [hclosed i])]
    simp
  · have htr := (paddingLoop_trace bm (locations.map xy3) (baseCellWidth bm) (pc : ℚ) ml
      (insertCells ⟨(bm.hx, bm.hy, bm.hz), bm.x0, [], false⟩ (baseBatch bm ml) false)).2
    have hins : m.insertions = (paddingLoop bm (locations.map xy3) (baseCellWidth bm)
        (pc : ℚ) ml
        (insertCells ⟨(bm.hx, bm.hy, bm.hz), bm.x0, [], false⟩ (baseBatch bm ml) false)).2.insertions := by
      rw [hm]
      unfold paddingFinish
      cases fin <;> simp
    rw [hins, htr]
    simp [insertCells]

/-- C4 witness: a one-cell base mesh, two refinement passes. -/
theorem C4_padding_cells_witness :
    create_nested_mesh (fun _ => none) [((0 : ℚ), (0 : ℚ), (0 : ℚ))] meshW
        "padding_cells" 1 2 true =
      .ok ([], ⟨([1], [2], [1]), (0, 0, 0),
        [[((0, 0, 0), 2)], [((0, 0, 0), 4)], [((0, 0, 0), 3)]], true⟩) ∧
    ((⟨([1], [2], [1]), (0, 0, 0),
        [[((0, 0, 0), 2)], [((0, 0, 0), 4)], [((0, 0, 0), 3)]], true⟩ :
          NestedTreeMesh).insertions =
      baseBatch meshW 2 ::
        (List.range 2).map (fun i =>
          paddingBatch meshW ([((0 : ℚ), (0 : ℚ), (0 : ℚ))].map xy3)
            (((1 : ℕ) : ℚ) * baseCellWidth meshW * (2 ^ (i + 1) - 1)) i) ∧
    (⟨([1], [2], [1]), (0, 0, 0),
        [[((0, 0, 0), 2)], [((0, 0, 0), 4)], [((0, 0, 0), 3)]], true⟩ :
          NestedTreeMesh).insertions.length = 2 + 1 ∧
    (∀ i : ℕ, padCum (baseCellWidth meshW) ((1 : ℕ) : ℚ) (i + 1) =
      ((1 : ℕ) : ℚ) * baseCellWidth meshW * (2 ^ (i + 1) - 1))) :=
  ⟨by decide,
   C4_padding_cells_refinement (fun _ => none) [((0 : ℚ), (0 : ℚ), (0 : ℚ))] meshW 1 2
     true [] ⟨([1], [2], [1]), (0, 0, 0),
       [[((0, 0, 0), 2)], [((0, 0, 0), 4)], [((0, 0, 0), 3)]], true⟩ (by decide)⟩

/-- Inserting into a list permutes consing. -/
theorem insertSortedBy_perm {α : Type} (le : α → α → Bool) (a : α) :
    ∀ l : List α, (insertSortedBy le a l).Perm (a :: l) := by
  intro l
  induction l with
  | nil => exact List.Perm.refl _
  | cons b rest ih =>
    simp only [insertSortedBy]
    split
    · exact List.Perm.refl _
    · exact List.Perm.trans (List.Perm.cons b ih) (List.Perm.swap a b rest)

/-- `sortBy` permutes its input. -/
theorem sortBy_perm {α : Type} (le : α → α → Bool) :
    ∀ l : List α, (sortBy le l).Perm l := by
  intro l
  induction l with
  | nil => exact List.Perm.refl _
  | cons a rest ih =>
    exact List.Perm.trans (insertSortedBy_perm le a (sortBy le rest)) (List.Perm.cons a ih)

/-- Membership in `np.unique(labels)` is membership in `labels`. -/
theorem mem_uniqueSorted (l : List ℕ) (a : ℕ) : a ∈ uniqueSorted l ↔ a ∈ l := by
  rw [uniqueSorted, (sortBy_perm _ _).mem_iff, List.mem_dedup]

/-- `np.unique(labels)` has no duplicates. -/
theorem nodup_uniqueSorted (l : List ℕ) : (uniqueSorted l).Nodup :=
  (sortBy_perm _ _).nodup_iff.mpr l.nodup_dedup

/-- Every tile of `tilesFor` is the index set of one distinct label. -/
theorem mem_tilesFor (labels : List ℕ) (t : List ℕ) :
    t ∈ tilesFor labels ↔ ∃ tid, tid ∈ uniqueSorted labels ∧
      t = (List.range labels.length).filter (fun j => decide (labels.getD j 0 = tid)) := by
  unfold tilesFor
  rw [List.mem_map]
  constructor
  · rintro ⟨tid, htid, rfl⟩
    exact ⟨tid, htid, rfl⟩
  · rintro ⟨tid, htid, rfl⟩
    exact ⟨tid, htid, rfl⟩

/-- An index below `labels.length` belongs to the tile of its own label. -/
theorem mem_own_tile (labels : List ℕ) (j : ℕ) (hj : j < labels.length) :
    j ∈ (List.range labels.length).filter
      (fun i => decide (labels.getD i 0 = labels.getD j 0)) := by
  rw [List.mem_filter]
  exact ⟨List.mem_range.mpr hj, by simp⟩

/-- C3: whenever `tile_locations` with `method='kmeans'` succeeds, its
first result partitions the location indices `{0, ..., n-1}`: the tiles
are non-empty, duplicate-free, pairwise disjoint, jointly cover exactly
the indices below `n`, and there is one tile per distinct cluster label. -/
theorem C3_kmeans_tiles_partition (kmeans : KMeansFn)
    (otherLabels : List (ℚ × ℚ) → ℕ → List ℕ) (locs : List (ℚ × ℚ))
    (n_tiles : ℕ) (bb cf uf : Bool) (out : TileOut)
    (h1 : 1 ≤ n_tiles) (h2 : n_tiles ≤ locs.length)
    (hlab : (kmeans locs n_tiles).length = locs.length)
    (hok : tile_locations kmeans otherLabels locs n_tiles true "kmeans" bb cf uf =
      .ok out) :
    (∀ t ∈ out.tiles, t ≠ []) ∧
    (∀ t ∈ out.tiles, t.Nodup) ∧
    List.Pairwise (fun s t => ∀ j, j ∈ s → j ∉ t) out.tiles ∧
    (∀ j, (∃ t ∈ out.tiles, j ∈ t) ↔ j < locs.length) ∧
    out.tiles.length = (uniqueSorted (kmeans locs n_tiles)).length := by
  have htiles : out.tiles = tilesFor (kmeans locs n_tiles) := by
    unfold tile_locations at hok
    rw [if_pos (by decide)] at hok
    simp only at hok
    cases hst : kmeansStats locs (kmeans locs n_tiles) (List.range n_tiles) with
    | error e =>
      rw [hst] at hok
      cases hok
    | ok stats =>
      rw [hst] at hok
      simp only at hok
      have := Except.ok.inj hok
      rw [← this]
  refine ⟨?_, ?_, ?_, ?_, ?_⟩
  · intro t ht
    rw [htiles, mem_tilesFor] at ht
    obtain ⟨tid, htid, rfl⟩ := ht
    obtain ⟨j, hj, hje⟩ :=
      List.mem_iff_getElem.mp ((mem_uniqueSorted _ _).mp htid)
    apply List.ne_nil_of_mem (a := j)
    rw [List.mem_filter]
    refine ⟨List.mem_range.mpr hj, ?_⟩
    rw [List.getD_eq_getElem _ _ hj, hje]
    simp
  · intro t ht
    rw [htiles, mem_tilesFor] at ht
    obtain ⟨tid, htid, rfl⟩ := ht
    exact (List.nodup_range _).filter _
  · rw [htiles]
    unfold tilesFor
    rw [List.pairwise_map]
    apply List.Pairwise.imp_of_mem ?_ (nodup_uniqueSorted (kmeans locs n_tiles))
    intro a b _ _ hab j hja hjb
    rw [List.mem_filter] at hja hjb
    exact hab (by
      have h1 := of_decide_eq_true hja.2
      have h2 := of_decide_eq_true hjb.2
      rw [← h1, ← h2])
  · intro j
    constructor
    · rintro ⟨t, ht, hjt⟩
      rw [htiles, mem_tilesFor] at ht
      obtain ⟨tid, htid, rfl⟩ := ht
      rw [List.mem_filter, List.mem_range] at hjt
      rw [← hlab]
      exact hjt.1
    · intro hj
      rw [← hlab] at hj
      refine ⟨(List.range (kmeans locs n_tiles).length).filter
        (fun i => decide ((kmeans locs n_tiles).getD i 0 =
          (kmeans locs n_tiles).getD j 0)), ?_, mem_own_tile _ j hj⟩
      rw [htiles, mem_tilesFor]
      refine ⟨(kmeans locs n_tiles).getD j 0, ?_, rfl⟩
      rw [mem_uniqueSorted, List.getD_eq_getElem _ _ hj]
      exact List.getElem_mem hj
  · rw [htiles]
    unfold tilesFor
    rw [List.length_map]

/-- C3 witness: three points, two clusters. -/
theorem C3_kmeans_tiles_witness :
    (∀ t ∈ (⟨[[0, 2], [1]], none, none, none⟩ : TileOut).tiles, t ≠ []) ∧
    (∀ t ∈ (⟨[[0, 2], [1]], none, none, none⟩ : TileOut).tiles, t.Nodup) ∧
    List.Pairwise (fun s t => ∀ j, j ∈ s → j ∉ t)
      (⟨[[0, 2], [1]], none, none, none⟩ : TileOut).tiles ∧
    (∀ j, (∃ t ∈ (⟨[[0, 2], [1]], none, none, none⟩ : TileOut).tiles, j ∈ t) ↔
      j < ([((0 : ℚ), (0 : ℚ)), (5, 5), (1, 0)] : List (ℚ × ℚ)).length) ∧
    (⟨[[0, 2], [1]], none, none, none⟩ : TileOut).tiles.length =
      (uniqueSorted ((fun _ _ => [0, 1, 0] : KMeansFn)
        [((0 : ℚ), (0 : ℚ)), (5, 5), (1, 0)] 2)).length :=
  C3_kmeans_tiles_partition (fun _ _ => [0, 1, 0]) (fun _ _ => [])
    [((0 : ℚ), (0 : ℚ)), (5, 5), (1, 0)] 2 false false false
    ⟨[[0, 2], [1]], none, none, none⟩ (by decide) (by decide) (by decide) (by decide)
